import Mathlib

/-!
Shallow embedding of `src/src/os/unix/ngx_freebsd_sendfile_chain.c`
(function `ngx_freebsd_sendfile_chain`), the FreeBSD sendfile output-chain
driver.  Machine pointers, file descriptors and byte counts are modelled as
naturals; the kernel calls (`sendfile`, `writev`, the `TCP_NOPUSH` toggle)
are modelled by an oracle supplying each loop iteration's outcome, since
their results are decided outside the program.  Line numbers in doc
comments refer to the C source file.
-/

/-- Modelled from the spec: the segment kinds of the data model (spec section 3).
The `ngx_hunk_t` record and the `NGX_HUNK_*` flag tests live in headers that
are not part of this repository snapshot.  A segment is a no-data marker, an
in-memory byte range from cursor `pos` to bound `last` (addresses as
naturals), or a file byte range with a file-resource identity `fd`. -/
inductive Hunk where
  | special : Hunk
  | memory (pos last : Nat) : Hunk
  | file (fd file_pos file_last : Nat) : Hunk
  deriving DecidableEq

/-- Modelled from the spec: `ngx_hunk_special` — a marker hunk that carries no
bytes (spec section 3, "Special"). -/
def ngx_hunk_special : Hunk → Bool
  | Hunk.special => true
  | _ => false

/-- Modelled from the spec: `ngx_hunk_in_memory_only` — a hunk that is a pure
memory range (spec section 3, "Memory segment"). -/
def ngx_hunk_in_memory_only : Hunk → Bool
  | Hunk.memory _ _ => true
  | _ => false

/-- Modelled from the spec: `ngx_hunk_size` — the remaining length of a hunk,
end cursor minus start cursor (spec sections 3 and 4.5). -/
def ngx_hunk_size : Hunk → Nat
  | Hunk.special => 0
  | Hunk.memory pos last => last - pos
  | Hunk.file _ fpos flast => flast - fpos

/-- Total remaining length of a chain. -/
def chainSize (chain : List Hunk) : Nat :=
  (chain.map ngx_hunk_size).sum

/-- Full retirement of a hunk (lines 278-284): the start cursor is set equal
to the end cursor. -/
def hunkRetire : Hunk → Hunk
  | Hunk.special => Hunk.special
  | Hunk.memory _ last => Hunk.memory last last
  | Hunk.file fd _ flast => Hunk.file fd flast flast

/-- Partial advance of a hunk by `n` bytes (lines 289-295): the start cursor
moves forward by `n`, the end cursor never moves. -/
def hunkAdvance : Hunk → Nat → Hunk
  | Hunk.special, _ => Hunk.special
  | Hunk.memory pos last, n => Hunk.memory (pos + n) last
  | Hunk.file fd fpos flast, n => Hunk.file fd (fpos + n) flast

/-- Progress advancer (lines 263-298): walk the chain from the head consuming
the reported sent-byte budget.  Special hunks are passed without consuming
budget; a hunk whose size is at most the remaining budget is fully retired;
the first hunk whose size strictly exceeds the budget is advanced by the
budget and the walk stops there.  Returns the passed-over (mutated) node
list and the new chain head (`cl` of line 300). -/
def advanceChain (sent : Nat) : List Hunk → List Hunk × List Hunk
  | [] => ([], [])
  | h :: rest =>
    if ngx_hunk_special h then
      let w := advanceChain sent rest
      (h :: w.1, w.2)
    else if sent = 0 then
      ([], h :: rest)
    else if ngx_hunk_size h ≤ sent then
      let w := advanceChain (sent - ngx_hunk_size h) rest
      (hunkRetire h :: w.1, w.2)
    else
      ([], hunkAdvance h sent :: rest)

/-- Scatter-gather vector entry `struct iovec`: base address and length. -/
structure Iovec where
  iov_base : Nat
  iov_len : Nat
  deriving DecidableEq

/-- Header and trailer iovec builder (lines 79-102 and lines 130-153; the two
loops are textually identical up to the `hsize` accumulation, which the
trailer loop simply discards).  Walks the chain while the entry count stays
below `iovMax` (`IOV_MAX`), skipping special hunks, stopping at the first
hunk that is not memory-only, and merging a memory hunk into the last entry
exactly when the previous contributing hunk's end pointer `prev` equals its
start pointer.  The accumulator is kept most-recent-first and reversed on
exit.  Returns (entries, accumulated memory size, remaining chain). -/
def buildIovecs (iovMax : Nat) : List Hunk → List Iovec → Option Nat → Nat →
    List Iovec × Nat × List Hunk
  | [], acc, _, hsize => (acc.reverse, hsize, [])
  | h :: rest, acc, prev, hsize =>
    if acc.length < iovMax then
      match h with
      | Hunk.special => buildIovecs iovMax rest acc prev hsize
      | Hunk.memory pos last =>
        let acc2 :=
          match acc, prev with
          | iov :: tl, some pv =>
            if pv = pos then
              Iovec.mk iov.iov_base (iov.iov_len + (last - pos)) :: tl
            else
              Iovec.mk pos (last - pos) :: iov :: tl
          | _, _ => Iovec.mk pos (last - pos) :: acc
        buildIovecs iovMax rest acc2 (some last) (hsize + (last - pos))
      | Hunk.file _ _ _ => (acc.reverse, hsize, h :: rest)
    else (acc.reverse, hsize, h :: rest)

/-- File-run coalescer (lines 112-124): keep absorbing strictly consecutive
file hunks that share the seed's descriptor `fd` and whose start offset
equals the running end offset `fprev`; stop at the first hunk that breaks
either condition or is not a file hunk.  Returns (total file size, remaining
chain). -/
def coalesceFile (fd fprev fsize : Nat) : List Hunk → Nat × List Hunk
  | [] => (fsize, [])
  | h :: rest =>
    match h with
    | Hunk.file fd2 fpos2 flast2 =>
      if fd2 = fd ∧ fprev = fpos2 then
        coalesceFile fd flast2 (fsize + (flast2 - fpos2)) rest
      else (fsize, h :: rest)
    | _ => (fsize, h :: rest)

/-- Output of the chain classifier: header iovecs and their total size, the
optional file region (seed descriptor and seed start offset) with its total
size, trailer iovecs, and the unconsumed tail chain. -/
structure Classified where
  header : List Iovec
  hsize : Nat
  fileRegion : Option (Nat × Nat)
  fsize : Nat
  trailer : List Iovec
  tail : List Hunk
  deriving DecidableEq

/-- Chain classifier (lines 77-161): build the header iovecs, capture and
coalesce a file region if the chain stopped at a file hunk, and build the
trailer iovecs only when a file region exists.  `tail` is the first segment
not consumed by any phase (line 161). -/
def classify (iovMax : Nat) (chain : List Hunk) : Classified :=
  match buildIovecs iovMax chain [] none 0 with
  | (hdr, hsz, rest1) =>
    match rest1 with
    | Hunk.file fd fpos flast :: rest =>
      match coalesceFile fd flast (flast - fpos) rest with
      | (fsz, rest2) =>
        match buildIovecs iovMax rest2 [] none 0 with
        | (trl, _, rest3) => Classified.mk hdr hsz (some (fd, fpos)) fsz trl rest3
    | _ => Classified.mk hdr hsz none 0 [] rest1

/-- Connection state touched by the function: the write event's `ready` and
`error` flags, the cumulative `sent` counter, and the one-time `tcp_nopush`
mode flag. -/
structure Conn where
  ready : Bool
  werror : Bool
  sent : Nat
  tcp_nopush : Bool
  deriving DecidableEq

/-- Platform capability constants: `IOV_MAX`, the
`ngx_freebsd_sendfile_nbytes_bug` flag, and `ngx_freebsd_use_tcp_nopush`. -/
structure Platform where
  iovMax : Nat
  nbytes_bug : Bool
  use_tcp_nopush : Bool
  deriving DecidableEq

/-- Oracle outcome of the `ngx_tcp_nopush` toggle (lines 167-180): success,
failure with `NGX_EINTR`, or failure with any other errno. -/
inductive NopushRes where
  | ok : NopushRes
  | eintrFail : NopushRes
  | fatalFail : NopushRes
  deriving DecidableEq

/-- Oracle outcome of the transfer primitive.  For `sendfile` the byte count
is the kernel's `sent` out-parameter, reported even alongside `EAGAIN` and
`EINTR`; for `writev` it is the non-negative return value on success and is
ignored on error (the code normalizes those to zero). -/
inductive XferRes where
  | ok (sent : Nat) : XferRes
  | again (sent : Nat) : XferRes
  | intr (sent : Nat) : XferRes
  | err (sent : Nat) : XferRes
  deriving DecidableEq

/-- Oracle for one iteration of the do-while loop. -/
structure IterOracle where
  nopush : NopushRes
  xfer : XferRes
  deriving DecidableEq

/-- Record of the one transfer syscall an iteration issues: either
`sendfile(fd, ..., file_pos, nbytes, hdtr with hdr_cnt/trl_cnt entries, ...)`
(line 205) or `writev` with `cnt` iovec entries (line 235). -/
inductive XferCall where
  | sendfileCall (fd file_pos nbytes hdr_cnt trl_cnt : Nat) : XferCall
  | writevCall (cnt : Nat) : XferCall
  deriving DecidableEq

/-- Requested-byte computation for `sendfile` (lines 194-206): the "nbytes
bug" workaround zeroes `hsize` when `ngx_freebsd_sendfile_nbytes_bug` is
unset, and the requested total is `fsize + hsize`. -/
def requestedNbytes (nbytes_bug : Bool) (fsize hsize : Nat) : Nat :=
  let hsize2 := if nbytes_bug = false then 0 else hsize
  fsize + hsize2

/-- Result of one iteration of the do-while body: a fatal error before the
transfer call (`ngx_tcp_nopush` failure, lines 175-180), a fatal error from
the transfer call itself, or a normal step carrying the advanced chain, the
issued call, the `eagain` and `eintr` flags and the `tail == in` loop test
of line 317. -/
inductive IterRes where
  | fatalNoCall (conn : Conn) : IterRes
  | fatalCall (conn : Conn) (call : XferCall) : IterRes
  | next (conn : Conn) (chain : List Hunk) (call : XferCall)
      (eagain eintr tailEqIn : Bool) : IterRes
  deriving DecidableEq

/-- Byte accounting and chain advance after a non-fatal transfer (lines
261-300), plus the pointer test `tail == in` of line 317: the classifier
consumed `k` chain nodes, so `tail` is position `k`, and the walk's new head
is the position after its passed-over node list. -/
def afterSend (conn : Conn) (chain : List Hunk) (k : Nat) (call : XferCall)
    (s : Nat) (eagain eintr : Bool) : IterRes :=
  let c2 := Conn.mk conn.ready conn.werror (conn.sent + s) conn.tcp_nopush
  let w := advanceChain s chain
  let te := decide (k < chain.length) && decide (w.1.length = k)
  IterRes.next c2 w.2 call eagain eintr te

/-- One iteration of the do-while body (lines 65-300): classify the chain;
with a file region, run the one-time `TCP_NOPUSH` toggle and `sendfile`
(recording partial counts even on `EAGAIN`/`EINTR`); without one, run
`writev` (normalizing error-path counts to zero, and never setting the
`eagain` hint flag); then account the sent bytes. -/
def sendIteration (p : Platform) (conn : Conn) (chain : List Hunk)
    (o : IterOracle) : IterRes :=
  let cls := classify p.iovMax chain
  let k := chain.length - cls.tail.length
  match cls.fileRegion with
  | some (fd, fpos) =>
    let c1 : Option Conn :=
      if p.use_tcp_nopush = true ∧ conn.tcp_nopush = false then
        match o.nopush with
        | NopushRes.ok => some (Conn.mk conn.ready conn.werror conn.sent true)
        | NopushRes.eintrFail => some conn
        | NopushRes.fatalFail => none
      else some conn
    match c1 with
    | none => IterRes.fatalNoCall (Conn.mk conn.ready true conn.sent conn.tcp_nopush)
    | some c2 =>
      let call := XferCall.sendfileCall fd fpos
        (requestedNbytes p.nbytes_bug cls.fsize cls.hsize)
        cls.header.length cls.trailer.length
      match o.xfer with
      | XferRes.err _ => IterRes.fatalCall (Conn.mk c2.ready true c2.sent c2.tcp_nopush) call
      | XferRes.ok s => afterSend c2 chain k call s false false
      | XferRes.again s => afterSend c2 chain k call s true false
      | XferRes.intr s => afterSend c2 chain k call s false true
  | none =>
    let call := XferCall.writevCall cls.header.length
    match o.xfer with
    | XferRes.err _ => IterRes.fatalCall (Conn.mk conn.ready true conn.sent conn.tcp_nopush) call
    | XferRes.ok s => afterSend conn chain k call s false false
    | XferRes.again _ => afterSend conn chain k call 0 false false
    | XferRes.intr _ => afterSend conn chain k call 0 false true

/-- Result of the whole function: the `NGX_CHAIN_ERROR` signal, a normal
return of the remaining chain, or oracle exhaustion while the loop would
have iterated again (the C loop would have issued another syscall). -/
inductive ChainResult where
  | chainError (conn : Conn) : ChainResult
  | done (conn : Conn) (chain : List Hunk) : ChainResult
  | fuelOut (conn : Conn) (chain : List Hunk) : ChainResult
  deriving DecidableEq

/-- Final readiness update (lines 319-321): clear the write-readiness flag
exactly when the remaining chain is non-null. -/
def finishConn (conn : Conn) (chain : List Hunk) : Conn :=
  if chain = [] then conn else Conn.mk false conn.werror conn.sent conn.tcp_nopush

/-- The do-while loop (lines 65-317) plus the final readiness update: on
`eagain` clear readiness and stop (lines 302-313); iterate again exactly
when `(tail != NULL and tail == in) or eintr` (line 317).  One oracle entry
is consumed per iteration. -/
def sendfileLoop (p : Platform) : List IterOracle → Conn → List Hunk → ChainResult
  | [], conn, chain => ChainResult.fuelOut conn chain
  | o :: os, conn, chain =>
    match sendIteration p conn chain o with
    | IterRes.fatalNoCall c => ChainResult.chainError c
    | IterRes.fatalCall c _ => ChainResult.chainError c
    | IterRes.next c chain2 _ eagain eintr te =>
      if eagain = true then
        ChainResult.done (Conn.mk false c.werror c.sent c.tcp_nopush) chain2
      else if te = true ∨ eintr = true then sendfileLoop p os c chain2
      else ChainResult.done (finishConn c chain2) chain2

/-- Top-level `ngx_freebsd_sendfile_chain` (lines 31-324; the compile-time
optional kqueue abnormal-closure gate of lines 53-63 is omitted): the
readiness gate of lines 49-51, then the transfer loop. -/
def ngx_freebsd_sendfile_chain (p : Platform) (conn : Conn) (chain : List Hunk)
    (oracle : List IterOracle) : ChainResult :=
  if conn.ready = false then ChainResult.done conn chain
  else sendfileLoop p oracle conn chain

/-- Connection component of a result. -/
def resultConn : ChainResult → Conn
  | ChainResult.chainError c => c
  | ChainResult.done c _ => c
  | ChainResult.fuelOut c _ => c

/-- Chain component of a result, `none` for the error signal. -/
def resultChain : ChainResult → Option (List Hunk)
  | ChainResult.chainError _ => none
  | ChainResult.done _ ch => some ch
  | ChainResult.fuelOut _ ch => some ch

/-- Connection component of an iteration result. -/
def iterConn : IterRes → Conn
  | IterRes.fatalNoCall c => c
  | IterRes.fatalCall c _ => c
  | IterRes.next c _ _ _ _ _ => c

/-- Whether an iteration completed without a fatal error. -/
def iterIsNext : IterRes → Bool
  | IterRes.next _ _ _ _ _ _ => true
  | _ => false

/-- The transfer call an iteration issued, `none` when it aborted before
reaching the transfer primitive. -/
def iterCall : IterRes → Option XferCall
  | IterRes.fatalNoCall _ => none
  | IterRes.fatalCall _ call => some call
  | IterRes.next _ _ call _ _ _ => some call

/-! Helper lemmas about hunk sizes and the progress advancer. -/

theorem chainSize_nil : chainSize [] = 0 := rfl

theorem chainSize_cons (h : Hunk) (rest : List Hunk) :
    chainSize (h :: rest) = ngx_hunk_size h + chainSize rest := by
  simp [chainSize]

theorem size_of_special {h : Hunk} (hs : ngx_hunk_special h = true) :
    ngx_hunk_size h = 0 := by
  cases h <;> simp_all [ngx_hunk_special, ngx_hunk_size]

theorem size_hunkRetire (h : Hunk) : ngx_hunk_size (hunkRetire h) = 0 := by
  cases h <;> simp [hunkRetire, ngx_hunk_size]

theorem size_hunkAdvance (h : Hunk) (n : Nat) (hn : n < ngx_hunk_size h) :
    ngx_hunk_size (hunkAdvance h n) = ngx_hunk_size h - n := by
  cases h <;> simp_all [hunkAdvance, ngx_hunk_size] <;> omega

theorem hunkRetire_idem (h : Hunk) : hunkRetire (hunkRetire h) = hunkRetire h := by
  cases h <;> simp [hunkRetire]

theorem hunkRetire_hunkAdvance (h : Hunk) (n : Nat) :
    hunkRetire (hunkAdvance h n) = hunkRetire h := by
  cases h <;> simp [hunkRetire, hunkAdvance]

theorem advanceChain_size_sub (chain : List Hunk) :
    ∀ s, s ≤ chainSize chain →
      chainSize (advanceChain s chain).2 = chainSize chain - s := by
  induction chain with
  | nil =>
    intro s hs
    simp [advanceChain, chainSize] at *
  | cons h rest ih =>
    intro s hs
    rw [chainSize_cons] at hs ⊢
    by_cases hsp : ngx_hunk_special h = true
    · have h0 := size_of_special hsp
      simp only [advanceChain, hsp, if_true]
      rw [ih s (by omega)]
      omega
    · by_cases hs0 : s = 0
      · subst hs0
        simp [advanceChain, hsp, chainSize_cons]
      · by_cases hsz : ngx_hunk_size h ≤ s
        · simp only [advanceChain, hsp, if_false, hs0, hsz, if_true, Bool.false_eq_true]
          rw [ih (s - ngx_hunk_size h) (by omega)]
          omega
        · simp only [advanceChain, hsp, if_false, hs0, hsz, if_true, Bool.false_eq_true]
          rw [chainSize_cons, size_hunkAdvance h s (by omega)]
          omega

theorem advanceChain_retired (chain : List Hunk) :
    ∀ s h, h ∈ (advanceChain s chain).1 → ngx_hunk_size h = 0 := by
  induction chain with
  | nil => intro s h hh; simp [advanceChain] at hh
  | cons hd rest ih =>
    intro s h hh
    by_cases hsp : ngx_hunk_special hd = true
    · simp only [advanceChain, hsp, if_true, List.mem_cons] at hh
      rcases hh with rfl | hh
      · exact size_of_special hsp
      · exact ih s h hh
    · by_cases hs0 : s = 0
      · subst hs0; simp [advanceChain, hsp] at hh
      · by_cases hsz : ngx_hunk_size hd ≤ s
        · simp only [advanceChain, hsp, hs0, hsz, if_true, if_false,
            Bool.false_eq_true, List.mem_cons] at hh
          rcases hh with rfl | hh
          · exact size_hunkRetire hd
          · exact ih _ h hh
        · simp [advanceChain, hsp, hs0, hsz] at hh

theorem advanceChain_length (chain : List Hunk) :
    ∀ s, (advanceChain s chain).1.length + (advanceChain s chain).2.length
      = chain.length := by
  induction chain with
  | nil => intro s; simp [advanceChain]
  | cons hd rest ih =>
    intro s
    by_cases hsp : ngx_hunk_special hd = true
    · simp only [advanceChain, hsp, if_true, List.length_cons]
      have := ih s
      omega
    · by_cases hs0 : s = 0
      · subst hs0; simp [advanceChain, hsp]
      · by_cases hsz : ngx_hunk_size hd ≤ s
        · simp only [advanceChain, hsp, hs0, hsz, if_true, if_false,
            Bool.false_eq_true, List.length_cons]
          have := ih (s - ngx_hunk_size hd)
          omega
        · simp [advanceChain, hsp, hs0, hsz]

theorem advanceChain_map_retire (chain : List Hunk) :
    ∀ s, ((advanceChain s chain).1 ++ (advanceChain s chain).2).map hunkRetire
      = chain.map hunkRetire := by
  induction chain with
  | nil => intro s; simp [advanceChain]
  | cons hd rest ih =>
    intro s
    by_cases hsp : ngx_hunk_special hd = true
    · simp only [advanceChain, hsp, if_true, List.cons_append, List.map_cons]
      rw [ih s]
    · by_cases hs0 : s = 0
      · subst hs0; simp [advanceChain, hsp]
      · by_cases hsz : ngx_hunk_size hd ≤ s
        · simp only [advanceChain, hsp, hs0, hsz, if_true, if_false,
            Bool.false_eq_true, List.cons_append, List.map_cons]
          rw [ih (s - ngx_hunk_size hd)]
          cases hd <;> simp [hunkRetire]
        · simp [advanceChain, hsp, hs0, hsz, hunkRetire_hunkAdvance]

theorem advanceChain_drop (chain : List Hunk) :
    ∀ s, (advanceChain s chain).2.drop 1
      = chain.drop ((advanceChain s chain).1.length + 1) := by
  induction chain with
  | nil => intro s; simp [advanceChain]
  | cons hd rest ih =>
    intro s
    by_cases hsp : ngx_hunk_special hd = true
    · simp only [advanceChain, hsp, if_true, List.length_cons]
      rw [ih s]
      simp
    · by_cases hs0 : s = 0
      · subst hs0; simp [advanceChain, hsp]
      · by_cases hsz : ngx_hunk_size hd ≤ s
        · simp only [advanceChain, hsp, hs0, hsz, if_true, if_false,
            Bool.false_eq_true, List.length_cons]
          rw [ih (s - ngx_hunk_size hd)]
          simp
        · simp [advanceChain, hsp, hs0, hsz]

/-- C1: for every chain and every sent-byte count not exceeding the total
remaining length, the progress-advancer walk of lines 263-298 consumes
exactly that count in chain order: the remaining length of the new chain is
the old total minus the count, every passed-over segment ends with start
cursor equal to end cursor (special segments consume nothing, having zero
size), the walk neither loses nor duplicates chain nodes and never moves an
end cursor, and everything beyond the walk's stopping node is untouched. -/
theorem claim1_progress_advancer_conservation (chain : List Hunk) (s : Nat)
    (hs : s ≤ chainSize chain) :
    chainSize (advanceChain s chain).2 = chainSize chain - s
    ∧ (∀ h ∈ (advanceChain s chain).1, ngx_hunk_size h = 0)
    ∧ (advanceChain s chain).1.length + (advanceChain s chain).2.length
        = chain.length
    ∧ ((advanceChain s chain).1 ++ (advanceChain s chain).2).map hunkRetire
        = chain.map hunkRetire
    ∧ (advanceChain s chain).2.drop 1
        = chain.drop ((advanceChain s chain).1.length + 1) :=
  ⟨advanceChain_size_sub chain s hs, advanceChain_retired chain s,
   advanceChain_length chain s, advanceChain_map_retire chain s,
   advanceChain_drop chain s⟩

/-- Witness for C1 at the concrete chain [memory 3 bytes, special, file 5
bytes] with 4 sent bytes. -/
theorem claim1_witness :
    chainSize (advanceChain 4 [Hunk.memory 100 103, Hunk.special, Hunk.file 1 0 5]).2
      = chainSize [Hunk.memory 100 103, Hunk.special, Hunk.file 1 0 5] - 4
    ∧ (∀ h ∈ (advanceChain 4 [Hunk.memory 100 103, Hunk.special, Hunk.file 1 0 5]).1,
        ngx_hunk_size h = 0)
    ∧ (advanceChain 4 [Hunk.memory 100 103, Hunk.special, Hunk.file 1 0 5]).1.length
        + (advanceChain 4 [Hunk.memory 100 103, Hunk.special, Hunk.file 1 0 5]).2.length
        = [Hunk.memory 100 103, Hunk.special, Hunk.file 1 0 5].length
    ∧ ((advanceChain 4 [Hunk.memory 100 103, Hunk.special, Hunk.file 1 0 5]).1
        ++ (advanceChain 4 [Hunk.memory 100 103, Hunk.special, Hunk.file 1 0 5]).2).map hunkRetire
        = [Hunk.memory 100 103, Hunk.special, Hunk.file 1 0 5].map hunkRetire
    ∧ (advanceChain 4 [Hunk.memory 100 103, Hunk.special, Hunk.file 1 0 5]).2.drop 1
        = [Hunk.memory 100 103, Hunk.special, Hunk.file 1 0 5].drop
            ((advanceChain 4 [Hunk.memory 100 103, Hunk.special, Hunk.file 1 0 5]).1.length + 1) :=
  claim1_progress_advancer_conservation
    [Hunk.memory 100 103, Hunk.special, Hunk.file 1 0 5] 4 (by decide)

theorem advanceChain_zero (chain : List Hunk) :
    advanceChain 0 chain
      = (chain.takeWhile ngx_hunk_special, chain.dropWhile ngx_hunk_special) := by
  induction chain with
  | nil => simp [advanceChain]
  | cons hd rest ih =>
    by_cases hsp : ngx_hunk_special hd = true
    · simp [advanceChain, hsp, List.takeWhile_cons, List.dropWhile_cons, ih]
    · simp [advanceChain, hsp, List.takeWhile_cons, List.dropWhile_cons]

theorem advanceChain_overshoot (chain : List Hunk) :
    ∀ s, chainSize chain < s → (advanceChain s chain).2 = [] := by
  induction chain with
  | nil => intro s hs; simp [advanceChain]
  | cons hd rest ih =>
    intro s hs
    rw [chainSize_cons] at hs
    by_cases hsp : ngx_hunk_special hd = true
    · have h0 := size_of_special hsp
      simp only [advanceChain, hsp, if_true]
      exact ih s (by omega)
    · have hs0 : ¬ s = 0 := by omega
      have hsz : ngx_hunk_size hd ≤ s := by omega
      simp only [advanceChain, hsp, hs0, hsz, if_true, if_false, Bool.false_eq_true]
      exact ih (s - ngx_hunk_size hd) (by omega)

theorem takeWhile_of_all_special (chain : List Hunk)
    (hall : ∀ h ∈ chain, ngx_hunk_special h = true) :
    chain.takeWhile ngx_hunk_special = chain
    ∧ chain.dropWhile ngx_hunk_special = [] := by
  induction chain with
  | nil => simp
  | cons hd rest ih =>
    have hhd : ngx_hunk_special hd = true := hall hd (by simp)
    have := ih (fun h hh => hall h (by simp [hh]))
    simp [List.takeWhile_cons, List.dropWhile_cons, hhd, this.1, this.2]

theorem buildIovecs_rest_length (iovMax : Nat) (chain : List Hunk) :
    ∀ acc prev hsize,
      (buildIovecs iovMax chain acc prev hsize).2.2.length ≤ chain.length := by
  induction chain with
  | nil => intro acc prev hsize; simp [buildIovecs]
  | cons hd rest ih =>
    intro acc prev hsize
    by_cases hlt : acc.length < iovMax
    · cases hd with
      | special =>
        simp only [buildIovecs, hlt, if_true]
        exact Nat.le_trans (ih acc prev hsize) (Nat.le_succ _)
      | memory pos last =>
        simp only [buildIovecs, hlt, if_true]
        exact Nat.le_trans (ih _ _ _) (Nat.le_succ _)
      | file fd fpos flast =>
        simp [buildIovecs, hlt]
    · simp [buildIovecs, hlt]

theorem coalesceFile_rest_length (chain : List Hunk) :
    ∀ fd fprev fsize,
      (coalesceFile fd fprev fsize chain).2.length ≤ chain.length := by
  induction chain with
  | nil => intro fd fprev fsize; simp [coalesceFile]
  | cons hd rest ih =>
    intro fd fprev fsize
    cases hd with
    | special => simp [coalesceFile]
    | memory pos last => simp [coalesceFile]
    | file fd2 fpos2 flast2 =>
      by_cases hc : fd2 = fd ∧ fprev = fpos2
      · simp only [coalesceFile, hc, if_true]
        exact Nat.le_trans (ih _ _ _) (Nat.le_succ _)
      · simp [coalesceFile, hc]

theorem classify_tail_le_buildIovecs (iovMax : Nat) (chain : List Hunk) :
    (classify iovMax chain).tail.length
      ≤ (buildIovecs iovMax chain [] none 0).2.2.length := by
  rcases hbi : buildIovecs iovMax chain [] none 0 with ⟨hdr, hsz, rest1⟩
  cases rest1 with
  | nil => simp [classify, hbi]
  | cons h1 rest =>
    cases h1 with
    | special => simp [classify, hbi]
    | memory pos last => simp [classify, hbi]
    | file fd fpos flast =>
      rcases hcf : coalesceFile fd flast (flast - fpos) rest with ⟨fsz, rest2⟩
      rcases hb2 : buildIovecs iovMax rest2 [] none 0 with ⟨trl, hsz2, rest3⟩
      simp only [classify, hbi, hcf, hb2, List.length_cons]
      have h1 : rest3.length ≤ rest2.length := by
        have := buildIovecs_rest_length iovMax rest2 [] none 0
        rw [hb2] at this
        exact this
      have h2 : rest2.length ≤ rest.length := by
        have := coalesceFile_rest_length rest fd flast (flast - fpos)
        rw [hcf] at this
        exact this
      omega

theorem classify_special_cons (iovMax : Nat) (h0 : 0 < iovMax) (rest : List Hunk) :
    classify iovMax (Hunk.special :: rest) = classify iovMax rest := by
  have hstep : buildIovecs iovMax (Hunk.special :: rest) [] none 0
      = buildIovecs iovMax rest [] none 0 := by
    simp [buildIovecs, h0]
  simp [classify, hstep]

theorem classify_tail_lt_dropWhile (iovMax : Nat) (h0 : 0 < iovMax) :
    ∀ chain : List Hunk, chain.dropWhile ngx_hunk_special ≠ [] →
      (classify iovMax chain).tail.length
        < (chain.dropWhile ngx_hunk_special).length := by
  intro chain
  induction chain with
  | nil => intro hne; simp at hne
  | cons hd rest ih =>
    intro hne
    by_cases hsp : ngx_hunk_special hd = true
    · have hdeq : hd = Hunk.special := by
        cases hd <;> simp_all [ngx_hunk_special]
      subst hdeq
      rw [List.dropWhile_cons_of_pos hsp] at hne ⊢
      rw [classify_special_cons iovMax h0]
      exact ih hne
    · rw [List.dropWhile_cons_of_neg (by simp [hsp])]
      cases hd with
      | special => simp [ngx_hunk_special] at hsp
      | memory pos last =>
        have hbi : buildIovecs iovMax (Hunk.memory pos last :: rest) [] none 0
            = buildIovecs iovMax rest [Iovec.mk pos (last - pos)] (some last) (last - pos) := by
          simp [buildIovecs, h0]
        have h1 := classify_tail_le_buildIovecs iovMax (Hunk.memory pos last :: rest)
        rw [hbi] at h1
        have h2 := buildIovecs_rest_length iovMax rest
          [Iovec.mk pos (last - pos)] (some last) (last - pos)
        simp only [List.length_cons]
        omega
      | file fd fpos flast =>
        have hbi : buildIovecs iovMax (Hunk.file fd fpos flast :: rest) [] none 0
            = ([], 0, Hunk.file fd fpos flast :: rest) := by
          simp [buildIovecs, h0]
        rcases hcf : coalesceFile fd flast (flast - fpos) rest with ⟨fsz, rest2⟩
        rcases hb2 : buildIovecs iovMax rest2 [] none 0 with ⟨trl, hsz2, rest3⟩
        simp only [classify, hbi, hcf, hb2, List.length_cons]
        have h1 : rest3.length ≤ rest2.length := by
          have := buildIovecs_rest_length iovMax rest2 [] none 0
          rw [hb2] at this
          exact this
        have h2 : rest2.length ≤ rest.length := by
          have := coalesceFile_rest_length rest fd flast (flast - fpos)
          rw [hcf] at this
          exact this
        omega

theorem buildIovecs_file_head (iovMax fd fpos flast : Nat) (rest : List Hunk) :
    buildIovecs iovMax (Hunk.file fd fpos flast :: rest) [] none 0
      = ([], 0, Hunk.file fd fpos flast :: rest) := by
  by_cases h0 : ([] : List Iovec).length < iovMax <;> simp [buildIovecs, h0]

/-- C8: in the header iovec builder (lines 79-102), three memory segments
with physically contiguous byte ranges coalesce into a single vector entry
whose length is the sum of the three lengths, while two memory segments
whose ranges are not contiguous produce two separate entries. -/
theorem claim8_header_coalescing (iovMax a l1 l2 l3 b m1 c m2 : Nat)
    (hmax : 1 < iovMax) :
    (classify iovMax [Hunk.memory a (a + l1), Hunk.memory (a + l1) (a + l1 + l2),
        Hunk.memory (a + l1 + l2) (a + l1 + l2 + l3)]).header
      = [Iovec.mk a (l1 + l2 + l3)]
    ∧ (b + m1 ≠ c →
        (classify iovMax [Hunk.memory b (b + m1), Hunk.memory c (c + m2)]).header
          = [Iovec.mk b m1, Iovec.mk c m2]) := by
  have h0 : 0 < iovMax := by omega
  constructor
  · simp [classify, buildIovecs, h0, hmax, Nat.add_sub_cancel_left]
  · intro hne
    simp [classify, buildIovecs, h0, hmax, Nat.add_sub_cancel_left, hne]

/-- Witness for C8 with vector maximum 10, a contiguous run at address 100
of lengths 1, 2, 3, and a gapped pair at 200 and 300. -/
theorem claim8_witness :
    (classify 10 [Hunk.memory 100 (100 + 1), Hunk.memory (100 + 1) (100 + 1 + 2),
        Hunk.memory (100 + 1 + 2) (100 + 1 + 2 + 3)]).header = [Iovec.mk 100 (1 + 2 + 3)]
    ∧ (classify 10 [Hunk.memory 200 (200 + 5), Hunk.memory 300 (300 + 7)]).header
        = [Iovec.mk 200 5, Iovec.mk 300 7] :=
  ⟨(claim8_header_coalescing 10 100 1 2 3 200 5 300 7 (by decide)).1,
   (claim8_header_coalescing 10 100 1 2 3 200 5 300 7 (by decide)).2 (by decide)⟩

/-- C9: two consecutive file segments coalesce into one file region (lines
104-125) with summed length exactly when they share the file descriptor and
the first segment's end offset equals the second's start offset; otherwise
the region ends at the first segment and the second is left as the tail. -/
theorem claim9_file_coalescing (iovMax f1 s1 e1 f2 s2 e2 : Nat) :
    ((f1 = f2 ∧ e1 = s2) →
      classify iovMax [Hunk.file f1 s1 e1, Hunk.file f2 s2 e2]
        = Classified.mk [] 0 (some (f1, s1)) ((e1 - s1) + (e2 - s2)) [] [])
    ∧ (¬ (f1 = f2 ∧ e1 = s2) →
      classify iovMax [Hunk.file f1 s1 e1, Hunk.file f2 s2 e2]
        = Classified.mk [] 0 (some (f1, s1)) (e1 - s1) [] [Hunk.file f2 s2 e2]) := by
  constructor
  · rintro ⟨rfl, rfl⟩
    simp [classify, buildIovecs_file_head, coalesceFile, buildIovecs]
  · intro hne
    have hc : ¬ (f2 = f1 ∧ e1 = s2) := fun hx => hne ⟨hx.1.symm, hx.2⟩
    simp [classify, buildIovecs_file_head, coalesceFile, hc]

/-- Witness for C9: coalescing pair (same file 1, offsets 0-10 then 10-14)
and a breaking pair (file changes from 1 to 2). -/
theorem claim9_witness :
    classify 10 [Hunk.file 1 0 10, Hunk.file 1 10 14]
      = Classified.mk [] 0 (some (1, 0)) ((10 - 0) + (14 - 10)) [] []
    ∧ classify 10 [Hunk.file 1 0 10, Hunk.file 2 10 14]
      = Classified.mk [] 0 (some (1, 0)) (10 - 0) [] [Hunk.file 2 10 14] :=
  ⟨(claim9_file_coalescing 10 1 0 10 1 10 14).1 (by decide),
   (claim9_file_coalescing 10 1 0 10 2 10 14).2 (by decide)⟩

/-- C10: in both the header and the trailer builder loops the adjacency
pointer `prev` is not reset when a special hunk is skipped, so two memory
segments that are contiguous in memory but separated in the chain by a
special segment still coalesce into a single vector entry spanning their
combined length. -/
theorem claim10_special_does_not_break_coalescing (iovMax a l1 l2 fd fp fl : Nat)
    (hmax : 1 < iovMax) :
    (classify iovMax [Hunk.memory a (a + l1), Hunk.special,
        Hunk.memory (a + l1) (a + l1 + l2)]).header = [Iovec.mk a (l1 + l2)]
    ∧ (classify iovMax [Hunk.file fd fp fl, Hunk.memory a (a + l1), Hunk.special,
        Hunk.memory (a + l1) (a + l1 + l2)]).trailer = [Iovec.mk a (l1 + l2)] := by
  have h0 : 0 < iovMax := by omega
  constructor
  · simp [classify, buildIovecs, h0, hmax, Nat.add_sub_cancel_left]
  · simp [classify, buildIovecs_file_head, coalesceFile, buildIovecs, h0, hmax,
      Nat.add_sub_cancel_left]

/-- Witness for C10 at vector maximum 10, memory run at address 500 with
lengths 3 and 4 split by a special hunk, behind a file hunk for the trailer
case. -/
theorem claim10_witness :
    (classify 10 [Hunk.memory 500 (500 + 3), Hunk.special,
        Hunk.memory (500 + 3) (500 + 3 + 4)]).header = [Iovec.mk 500 (3 + 4)]
    ∧ (classify 10 [Hunk.file 7 0 9, Hunk.memory 500 (500 + 3), Hunk.special,
        Hunk.memory (500 + 3) (500 + 3 + 4)]).trailer = [Iovec.mk 500 (3 + 4)] :=
  ⟨(claim10_special_does_not_break_coalescing 10 500 3 4 7 0 9 (by decide)).1,
   (claim10_special_does_not_break_coalescing 10 500 3 4 7 0 9 (by decide)).2⟩

/-- C2 counterexample: on a platform with the nbytes bug flag set
(`nbytes_bug = true`), a chain with a 4-byte header and a 10-byte file
region produces a sendfile call requesting 14 bytes, not the file-region
length 10 alone as the claim states. -/
theorem claim2_counterexample :
    iterCall (sendIteration (Platform.mk 10 true false) (Conn.mk true false 0 false)
        [Hunk.memory 100 104, Hunk.file 1 0 10]
        (IterOracle.mk NopushRes.ok (XferRes.ok 14)))
      = some (XferCall.sendfileCall 1 0 14 1 0)
    ∧ requestedNbytes true 10 4 ≠ 10 := by
  decide

/-- C2 amended: the byte count passed to sendfile (lines 194-206) excludes
the header length exactly on platforms WITHOUT the historical bug
(`nbytes_bug = false` zeroes `hsize`); on platforms with the bug flag set
the requested total is file-region length plus header length. -/
theorem claim2_nbytes_workaround_amended (fsize hsize : Nat) :
    requestedNbytes true fsize hsize = fsize + hsize
    ∧ requestedNbytes false fsize hsize = fsize := by
  simp [requestedNbytes]

theorem te_false_of_lt (k len m : Nat) (h : m < k) :
    (decide (k < len) && decide (m = k)) = false := by
  have hne : ¬ (m = k) := by omega
  simp [hne]

theorem te_false_of_full (k len m : Nat) (h : m = len) :
    (decide (k < len) && decide (m = k)) = false := by
  by_cases hk : k < len
  · have hne : ¬ (m = k) := by omega
    simp [hne]
  · simp [hk]

theorem sendfileLoop_ready_cleared (p : Platform) :
    ∀ (oracle : List IterOracle) (conn : Conn) (chain : List Hunk)
      (c : Conn) (ch : List Hunk),
      sendfileLoop p oracle conn chain = ChainResult.done c ch → ch ≠ [] →
        c.ready = false := by
  intro oracle
  induction oracle with
  | nil =>
    intro conn chain c ch hres hne
    simp [sendfileLoop] at hres
  | cons o os ih =>
    intro conn chain c ch hres hne
    simp only [sendfileLoop] at hres
    cases hit : sendIteration p conn chain o with
    | fatalNoCall c2 => rw [hit] at hres; simp at hres
    | fatalCall c2 call => rw [hit] at hres; simp at hres
    | next c2 chain2 call ea ei te =>
      rw [hit] at hres
      dsimp only at hres
      by_cases hea : ea = true
      · rw [if_pos hea] at hres
        have h1 : Conn.mk false c2.werror c2.sent c2.tcp_nopush = c ∧ chain2 = ch := by
          simpa using hres
        rw [← h1.1]
      · rw [if_neg hea] at hres
        by_cases hte : te = true ∨ ei = true
        · rw [if_pos hte] at hres
          exact ih c2 chain2 c ch hres hne
        · rw [if_neg hte] at hres
          have h1 : finishConn c2 chain2 = c ∧ chain2 = ch := by
            simpa using hres
          have hne2 : ¬ chain2 = [] := by rw [h1.2]; exact hne
          rw [← h1.1, finishConn, if_neg hne2]

/-- C5 counterexample: a plain-success partial transfer (writev sends 2 of 4
bytes, no error) with a non-null remaining chain whose head is not the tail
pointer (the tail was null) nevertheless CLEARS the write-readiness flag,
because lines 319-321 clear readiness whenever any chain remains; the claim
says readiness stays unchanged in this case. -/
theorem claim5_counterexample :
    ngx_freebsd_sendfile_chain (Platform.mk 10 false false) (Conn.mk true false 0 false)
        [Hunk.memory 100 104] [IterOracle.mk NopushRes.ok (XferRes.ok 2)]
      = ChainResult.done (Conn.mk false false 2 false) [Hunk.memory 102 104]
    ∧ (Conn.mk true false 0 false).ready = true := by
  decide

/-- C5 amended: whenever the function returns a normal result with a
non-null remaining chain — including a plain-success partial transfer with
more attempts pending — the connection's write-readiness flag is cleared
(lines 319-321); readiness is left unchanged only when the chain fully
drains without a would-block hint. -/
theorem claim5_partial_clears_readiness_amended (p : Platform) (conn : Conn)
    (chain : List Hunk) (oracle : List IterOracle) (c : Conn) (ch : List Hunk)
    (hres : ngx_freebsd_sendfile_chain p conn chain oracle = ChainResult.done c ch)
    (hne : ch ≠ []) : c.ready = false := by
  unfold ngx_freebsd_sendfile_chain at hres
  by_cases hr : conn.ready = false
  · rw [if_pos hr] at hres
    have h1 : conn = c ∧ chain = ch := by simpa using hres
    rw [← h1.1]
    exact hr
  · rw [if_neg hr] at hres
    exact sendfileLoop_ready_cleared p oracle conn chain c ch hres hne

/-- Witness for the amended C5 at the counterexample input. -/
theorem claim5_witness : (Conn.mk false false 2 false).ready = false :=
  claim5_partial_clears_readiness_amended (Platform.mk 10 false false)
    (Conn.mk true false 0 false) [Hunk.memory 100 104]
    [IterOracle.mk NopushRes.ok (XferRes.ok 2)]
    (Conn.mk false false 2 false) [Hunk.memory 102 104] (by decide) (by decide)

/-- C6 counterexample: reported sent count 5 strictly exceeds the 2-byte
chain, yet the function returns a normal fully-drained result with the
connection's error flag still false (and the sent counter credited with all
5 bytes) — no fatal internal-consistency error is raised. -/
theorem claim6_counterexample :
    ngx_freebsd_sendfile_chain (Platform.mk 10 false false) (Conn.mk true false 0 false)
        [Hunk.memory 100 102] [IterOracle.mk NopushRes.ok (XferRes.ok 5)]
      = ChainResult.done (Conn.mk true false 5 false) []
    ∧ (resultConn (ngx_freebsd_sendfile_chain (Platform.mk 10 false false)
        (Conn.mk true false 0 false) [Hunk.memory 100 102]
        [IterOracle.mk NopushRes.ok (XferRes.ok 5)])).werror = false := by
  decide

/-- C6 amended: when the reported sent count strictly exceeds the total
remaining chain length, the walk of lines 263-298 silently retires the
whole chain and the excess is discarded: the function returns the empty
chain as a normal success, with the error flag and readiness flag
untouched and the full reported count added to the sent counter — it is
never treated as a fatal error. -/
theorem claim6_overcount_absorbed_amended (p : Platform) (conn : Conn)
    (chain : List Hunk) (s : Nat) (hr : conn.ready = true)
    (hs : chainSize chain < s) :
    ∃ c, ngx_freebsd_sendfile_chain p conn chain
          [IterOracle.mk NopushRes.ok (XferRes.ok s)]
        = ChainResult.done c []
      ∧ c.ready = conn.ready ∧ c.werror = conn.werror ∧ c.sent = conn.sent + s := by
  have hw2 : (advanceChain s chain).2 = [] := advanceChain_overshoot chain s hs
  have hm : (advanceChain s chain).1.length = chain.length := by
    have := advanceChain_length chain s
    rw [hw2] at this
    simpa using this
  have hte : ∀ k : Nat,
      (decide (k < chain.length) && decide ((advanceChain s chain).1.length = k))
        = false := fun k => te_false_of_full k chain.length _ hm
  have hgate : ngx_freebsd_sendfile_chain p conn chain
        [IterOracle.mk NopushRes.ok (XferRes.ok s)]
      = sendfileLoop p [IterOracle.mk NopushRes.ok (XferRes.ok s)] conn chain := by
    simp [ngx_freebsd_sendfile_chain, hr]
  cases hreg : (classify p.iovMax chain).fileRegion with
  | none =>
    have hstep : sendfileLoop p [IterOracle.mk NopushRes.ok (XferRes.ok s)] conn chain
        = ChainResult.done
            (Conn.mk conn.ready conn.werror (conn.sent + s) conn.tcp_nopush) [] := by
      simp [sendfileLoop, sendIteration, hreg, afterSend, hw2, hte, finishConn]
      all_goals omega
    exact ⟨Conn.mk conn.ready conn.werror (conn.sent + s) conn.tcp_nopush,
      by rw [hgate, hstep], rfl, rfl, rfl⟩
  | some fr =>
    rcases fr with ⟨fd, fpos⟩
    by_cases hnp : p.use_tcp_nopush = true ∧ conn.tcp_nopush = false
    · have hstep : sendfileLoop p [IterOracle.mk NopushRes.ok (XferRes.ok s)] conn chain
          = ChainResult.done (Conn.mk conn.ready conn.werror (conn.sent + s) true) [] := by
        simp [sendfileLoop, sendIteration, hreg, if_pos hnp, afterSend, hw2, hte, finishConn]
        all_goals omega
      exact ⟨Conn.mk conn.ready conn.werror (conn.sent + s) true,
        by rw [hgate, hstep], rfl, rfl, rfl⟩
    · have hstep : sendfileLoop p [IterOracle.mk NopushRes.ok (XferRes.ok s)] conn chain
          = ChainResult.done
              (Conn.mk conn.ready conn.werror (conn.sent + s) conn.tcp_nopush) [] := by
        simp [sendfileLoop, sendIteration, hreg, if_neg hnp, afterSend, hw2, hte, finishConn]
        all_goals omega
      exact ⟨Conn.mk conn.ready conn.werror (conn.sent + s) conn.tcp_nopush,
        by rw [hgate, hstep], rfl, rfl, rfl⟩

/-- Witness for the amended C6: a 2-byte chain with 5 reported bytes. -/
theorem claim6_witness :
    ∃ c, ngx_freebsd_sendfile_chain (Platform.mk 10 false false)
          (Conn.mk true false 0 false) [Hunk.memory 100 102]
          [IterOracle.mk NopushRes.ok (XferRes.ok 5)]
        = ChainResult.done c []
      ∧ c.ready = (Conn.mk true false 0 false).ready
      ∧ c.werror = (Conn.mk true false 0 false).werror
      ∧ c.sent = (Conn.mk true false 0 false).sent + 5 :=
  claim6_overcount_absorbed_amended (Platform.mk 10 false false)
    (Conn.mk true false 0 false) [Hunk.memory 100 102] 5 rfl (by decide)

theorem buildIovecs_all_special (iovMax : Nat) (h0 : 0 < iovMax) :
    ∀ chain : List Hunk, (∀ h ∈ chain, ngx_hunk_special h = true) →
      buildIovecs iovMax chain [] none 0 = ([], 0, []) := by
  intro chain
  induction chain with
  | nil => intro _; simp [buildIovecs]
  | cons hd rest ih =>
    intro hall
    have hhd : ngx_hunk_special hd = true := hall hd (by simp)
    have hdeq : hd = Hunk.special := by
      cases hd <;> simp_all [ngx_hunk_special]
    subst hdeq
    have hstep : buildIovecs iovMax (Hunk.special :: rest) [] none 0
        = buildIovecs iovMax rest [] none 0 := by
      simp [buildIovecs, h0]
    rw [hstep]
    exact ih (fun h hh => hall h (by simp [hh]))

theorem classify_all_special (iovMax : Nat) (h0 : 0 < iovMax)
    (chain : List Hunk) (hall : ∀ h ∈ chain, ngx_hunk_special h = true) :
    classify iovMax chain = Classified.mk [] 0 none 0 [] [] := by
  simp [classify, buildIovecs_all_special iovMax h0 chain hall]

/-- C3 counterexample: on the entirely special chain [special] (connection
ready), the function does NOT return the chain unchanged — the walk passes
the special segment and the function returns the empty chain (and the
dispatcher still issued a zero-entry writev, see the amended theorem): the
returned chain differs from the input chain. -/
theorem claim3_counterexample :
    ngx_freebsd_sendfile_chain (Platform.mk 10 false false) (Conn.mk true false 0 false)
        [Hunk.special] [IterOracle.mk NopushRes.ok (XferRes.ok 0)]
      = ChainResult.done (Conn.mk true false 0 false) []
    ∧ ([] : List Hunk) ≠ [Hunk.special] := by
  decide

/-- C3 amended: a chain made entirely of special segments classifies to
empty header and trailer vectors and no file region, but the dispatcher
still performs one transfer syscall — a zero-entry writev — which reports
zero bytes; the walk then passes every special segment, so the function
returns the EMPTY chain (not the unchanged input chain), with the
connection (readiness included) untouched. -/
theorem claim3_all_special_amended (p : Platform) (conn : Conn) (chain : List Hunk)
    (h0 : 0 < p.iovMax) (hr : conn.ready = true)
    (hall : ∀ h ∈ chain, ngx_hunk_special h = true) :
    classify p.iovMax chain = Classified.mk [] 0 none 0 [] []
    ∧ sendIteration p conn chain (IterOracle.mk NopushRes.ok (XferRes.ok 0))
        = IterRes.next conn [] (XferCall.writevCall 0) false false false
    ∧ ngx_freebsd_sendfile_chain p conn chain [IterOracle.mk NopushRes.ok (XferRes.ok 0)]
        = ChainResult.done conn [] := by
  have hcls := classify_all_special p.iovMax h0 chain hall
  have htw := takeWhile_of_all_special chain hall
  have hw : advanceChain 0 chain = (chain, []) := by
    rw [advanceChain_zero, htw.1, htw.2]
  have hiter : sendIteration p conn chain (IterOracle.mk NopushRes.ok (XferRes.ok 0))
      = IterRes.next conn [] (XferCall.writevCall 0) false false false := by
    simp only [sendIteration, hcls, afterSend, hw]
    simp
  refine ⟨hcls, hiter, ?_⟩
  have hgate : ngx_freebsd_sendfile_chain p conn chain
        [IterOracle.mk NopushRes.ok (XferRes.ok 0)]
      = sendfileLoop p [IterOracle.mk NopushRes.ok (XferRes.ok 0)] conn chain := by
    simp [ngx_freebsd_sendfile_chain, hr]
  rw [hgate]
  simp [sendfileLoop, hiter, finishConn]

/-- Witness for the amended C3 at the one-element special chain. -/
theorem claim3_witness :
    classify 10 [Hunk.special] = Classified.mk [] 0 none 0 [] []
    ∧ sendIteration (Platform.mk 10 false false) (Conn.mk true false 0 false)
        [Hunk.special] (IterOracle.mk NopushRes.ok (XferRes.ok 0))
        = IterRes.next (Conn.mk true false 0 false) [] (XferCall.writevCall 0)
            false false false
    ∧ ngx_freebsd_sendfile_chain (Platform.mk 10 false false) (Conn.mk true false 0 false)
        [Hunk.special] [IterOracle.mk NopushRes.ok (XferRes.ok 0)]
        = ChainResult.done (Conn.mk true false 0 false) [] :=
  claim3_all_special_amended (Platform.mk 10 false false) (Conn.mk true false 0 false)
    [Hunk.special] (by decide) rfl (by decide)

/-- C4 counterexample: a would-block report with zero bytes on the chain
[special, memory 100-102] returns the chain [memory 100-102]: the leading
special segment is passed by the walk even with zero bytes sent, so the
returned chain's head is NOT the input chain's head. -/
theorem claim4_counterexample :
    ngx_freebsd_sendfile_chain (Platform.mk 10 false false) (Conn.mk true false 0 false)
        [Hunk.special, Hunk.memory 100 102]
        [IterOracle.mk NopushRes.ok (XferRes.again 0)]
      = ChainResult.done (Conn.mk false false 0 false) [Hunk.memory 100 102]
    ∧ [Hunk.memory 100 102] ≠ [Hunk.special, Hunk.memory 100 102] := by
  decide

/-- C4 amended: if the transfer reports would-block with zero bytes sent on
the first attempt, the returned chain is the input chain with its LEADING
SPECIAL SEGMENTS PASSED (all remaining segments keep their cursors
unchanged, as the returned chain is a suffix of the untouched input); the
sent counter and error flag are unchanged, and the write-readiness flag is
cleared whenever the remaining chain is non-null. -/
theorem claim4_wouldblock_preserves_chain_amended (p : Platform) (conn : Conn)
    (chain : List Hunk) (h0 : 0 < p.iovMax) (hr : conn.ready = true) :
    ∃ c, ngx_freebsd_sendfile_chain p conn chain
          [IterOracle.mk NopushRes.ok (XferRes.again 0)]
        = ChainResult.done c (chain.dropWhile ngx_hunk_special)
      ∧ c.sent = conn.sent ∧ c.werror = conn.werror
      ∧ (chain.dropWhile ngx_hunk_special ≠ [] → c.ready = false) := by
  have hw : advanceChain 0 chain
      = (chain.takeWhile ngx_hunk_special, chain.dropWhile ngx_hunk_special) :=
    advanceChain_zero chain
  have hlen : (chain.takeWhile ngx_hunk_special).length
      + (chain.dropWhile ngx_hunk_special).length = chain.length := by
    have h1 := congrArg List.length
      (List.takeWhile_append_dropWhile ngx_hunk_special chain)
    rw [List.length_append] at h1
    exact h1
  have hgate : ngx_freebsd_sendfile_chain p conn chain
        [IterOracle.mk NopushRes.ok (XferRes.again 0)]
      = sendfileLoop p [IterOracle.mk NopushRes.ok (XferRes.again 0)] conn chain := by
    simp [ngx_freebsd_sendfile_chain, hr]
  by_cases hdw : chain.dropWhile ngx_hunk_special = []
  · have hall : ∀ h ∈ chain, ngx_hunk_special h = true :=
      fun h hh => List.dropWhile_eq_nil_iff.mp hdw h hh
    have hcls := classify_all_special p.iovMax h0 chain hall
    have hiter : sendIteration p conn chain (IterOracle.mk NopushRes.ok (XferRes.again 0))
        = IterRes.next conn (chain.dropWhile ngx_hunk_special) (XferCall.writevCall 0)
            false false false := by
      simp only [sendIteration, hcls, afterSend, hw]
      simp [hdw]
    refine ⟨conn, ?_, rfl, rfl, fun hne => absurd hdw hne⟩
    rw [hgate]
    simp [sendfileLoop, hiter, finishConn, hdw]
  · have hdwlen : 0 < (chain.dropWhile ngx_hunk_special).length :=
      List.length_pos.mpr hdw
    have hlt := classify_tail_lt_dropWhile p.iovMax h0 chain hdw
    cases hreg : (classify p.iovMax chain).fileRegion with
    | none =>
      have hstep : sendfileLoop p [IterOracle.mk NopushRes.ok (XferRes.again 0)] conn chain
          = ChainResult.done
              (Conn.mk false conn.werror (conn.sent + 0) conn.tcp_nopush)
              (chain.dropWhile ngx_hunk_special) := by
        simp [sendfileLoop, sendIteration, hreg, afterSend, hw, finishConn, hdw]
        all_goals omega
      exact ⟨Conn.mk false conn.werror (conn.sent + 0) conn.tcp_nopush,
        by rw [hgate, hstep], by simp, rfl, fun _ => rfl⟩
    | some fr =>
      rcases fr with ⟨fd, fpos⟩
      by_cases hnp : p.use_tcp_nopush = true ∧ conn.tcp_nopush = false
      · have hstep : sendfileLoop p [IterOracle.mk NopushRes.ok (XferRes.again 0)] conn chain
            = ChainResult.done (Conn.mk false conn.werror (conn.sent + 0) true)
                (chain.dropWhile ngx_hunk_special) := by
          simp [sendfileLoop, sendIteration, hreg, if_pos hnp, afterSend, hw]
        exact ⟨Conn.mk false conn.werror (conn.sent + 0) true,
          by rw [hgate, hstep], by simp, rfl, fun _ => rfl⟩
      · have hstep : sendfileLoop p [IterOracle.mk NopushRes.ok (XferRes.again 0)] conn chain
            = ChainResult.done
                (Conn.mk false conn.werror (conn.sent + 0) conn.tcp_nopush)
                (chain.dropWhile ngx_hunk_special) := by
          simp [sendfileLoop, sendIteration, hreg, if_neg hnp, afterSend, hw]
        exact ⟨Conn.mk false conn.werror (conn.sent + 0) conn.tcp_nopush,
          by rw [hgate, hstep], by simp, rfl, fun _ => rfl⟩

/-- Witness for the amended C4 at the chain [special, memory 100-102]. -/
theorem claim4_witness :
    ∃ c, ngx_freebsd_sendfile_chain (Platform.mk 10 false false)
          (Conn.mk true false 0 false) [Hunk.special, Hunk.memory 100 102]
          [IterOracle.mk NopushRes.ok (XferRes.again 0)]
        = ChainResult.done c
            ([Hunk.special, Hunk.memory 100 102].dropWhile ngx_hunk_special)
      ∧ c.sent = (Conn.mk true false 0 false).sent
      ∧ c.werror = (Conn.mk true false 0 false).werror
      ∧ ([Hunk.special, Hunk.memory 100 102].dropWhile ngx_hunk_special ≠ [] →
          c.ready = false) :=
  claim4_wouldblock_preserves_chain_amended (Platform.mk 10 false false)
    (Conn.mk true false 0 false) [Hunk.special, Hunk.memory 100 102] (by decide) rfl

/-- C7: when a file region exists and the one-time TCP_NOPUSH enable runs
(platform wants it, connection flag still unset, lines 165-187): a failure
with an errno other than EINTR marks the connection faulted and returns the
fatal signal WITHOUT performing the transfer syscall, whatever the transfer
oracle would have said; a failure with EINTR is absorbed and processing
continues with the mode flag still unset; and the connection's mode flag
becomes set exactly when the toggle succeeds. -/
theorem claim7_tcp_nopush_escalation (p : Platform) (conn : Conn) (chain : List Hunk)
    (fd fpos : Nat) (x : XferRes) (s : Nat)
    (huse : p.use_tcp_nopush = true) (hnp : conn.tcp_nopush = false)
    (hreg : (classify p.iovMax chain).fileRegion = some (fd, fpos)) :
    sendIteration p conn chain (IterOracle.mk NopushRes.fatalFail x)
      = IterRes.fatalNoCall (Conn.mk conn.ready true conn.sent conn.tcp_nopush)
    ∧ (iterConn (sendIteration p conn chain
        (IterOracle.mk NopushRes.eintrFail (XferRes.ok s)))).tcp_nopush = false
    ∧ iterIsNext (sendIteration p conn chain
        (IterOracle.mk NopushRes.eintrFail (XferRes.ok s))) = true
    ∧ (iterConn (sendIteration p conn chain
        (IterOracle.mk NopushRes.ok (XferRes.ok s)))).tcp_nopush = true
    ∧ iterIsNext (sendIteration p conn chain
        (IterOracle.mk NopushRes.ok (XferRes.ok s))) = true := by
  refine ⟨?_, ?_, ?_, ?_, ?_⟩ <;>
    simp [sendIteration, hreg, afterSend, iterConn, iterIsNext, huse, hnp]

/-- Witness for C7 at a one-hunk file chain on a platform using TCP_NOPUSH. -/
theorem claim7_witness :
    sendIteration (Platform.mk 10 false true) (Conn.mk true false 0 false)
        [Hunk.file 1 0 10] (IterOracle.mk NopushRes.fatalFail (XferRes.ok 3))
      = IterRes.fatalNoCall (Conn.mk true true 0 false)
    ∧ (iterConn (sendIteration (Platform.mk 10 false true) (Conn.mk true false 0 false)
        [Hunk.file 1 0 10] (IterOracle.mk NopushRes.eintrFail (XferRes.ok 3)))).tcp_nopush = false
    ∧ iterIsNext (sendIteration (Platform.mk 10 false true) (Conn.mk true false 0 false)
        [Hunk.file 1 0 10] (IterOracle.mk NopushRes.eintrFail (XferRes.ok 3))) = true
    ∧ (iterConn (sendIteration (Platform.mk 10 false true) (Conn.mk true false 0 false)
        [Hunk.file 1 0 10] (IterOracle.mk NopushRes.ok (XferRes.ok 3)))).tcp_nopush = true
    ∧ iterIsNext (sendIteration (Platform.mk 10 false true) (Conn.mk true false 0 false)
        [Hunk.file 1 0 10] (IterOracle.mk NopushRes.ok (XferRes.ok 3))) = true :=
  claim7_tcp_nopush_escalation (Platform.mk 10 false true) (Conn.mk true false 0 false)
    [Hunk.file 1 0 10] 1 0 (XferRes.ok 3) 3 rfl rfl (by decide)
